import Mathlib

/-!
Shallow embedding of the OTU clustering program (`agc.py`):
abundance-ordered greedy clustering of amplicon sequences.

An amplicon file is modelled as its list of text lines (newline-free).
The external pairwise aligner (`nwalign3.global_align`) is modelled as an
arbitrary function `String → String → String × String` returning the
aligned pair.  Fallible Python code (list indexing, division by zero) is
embedded with `Except String`.
-/

/-- Embeds `line.startswith(">")`. -/
def startswith_gt (line : String) : Bool :=
  match line.data with
  | [] => false
  | c :: _ => c = '>'

/-- Embeds `line.strip()`: remove leading and trailing whitespace. -/
def py_strip (s : String) : String :=
  ⟨((s.data.dropWhile Char.isWhitespace).reverse.dropWhile Char.isWhitespace).reverse⟩

/-- Embeds `read_fasta` (agc.py lines 78-96): accumulate body lines into
`sequence`; on a header line (`>` prefix) yield the accumulated sequence
when its length is ≥ `minseqlen` and reset; after the last line, the final
`yield sequence` is unconditional, exactly as in the source. -/
def read_fasta_go (minseqlen : ℕ) : List String → String → List String
  | [], sequence => [sequence]
  | line :: rest, sequence =>
      if startswith_gt line then
        (if minseqlen ≤ sequence.length then [sequence] else []) ++
          read_fasta_go minseqlen rest ""
      else
        read_fasta_go minseqlen rest (sequence ++ py_strip line)

/-- Embeds `read_fasta(amplicon_file, minseqlen)` over the file's lines. -/
def read_fasta (lines : List String) (minseqlen : ℕ) : List String :=
  read_fasta_go minseqlen lines ""

/-- Number of occurrences of the exact sequence `s` in the input list
(the multiplicity recorded by `Counter(sequences)`). -/
def seq_occurrences (seqs : List String) (s : String) : ℕ :=
  (seqs.filter (fun t => t = s)).length

/-- Worker for `counter_keys`: keep each sequence at its first occurrence,
skipping sequences already seen. -/
def counter_keys_go (seen : List String) : List String → List String
  | [] => []
  | s :: rest =>
      if s ∈ seen then counter_keys_go seen rest
      else s :: counter_keys_go (s :: seen) rest

/-- The distinct sequences of the input in first-occurrence order:
the key order of `Counter(sequences)` (dict insertion order). -/
def counter_keys (seqs : List String) : List String :=
  counter_keys_go [] seqs

/-- Embeds `Counter(sequences).items()` in insertion (first-occurrence) order. -/
def counter_items (seqs : List String) : List (String × ℕ) :=
  (counter_keys seqs).map (fun s => (s, seq_occurrences seqs s))

/-- One step of the stable descending insertion sort modelling Python's
stable `sorted(..., key=itemgetter(1), reverse=True)` used by
`Counter.most_common()`: `x` is placed before the first element whose
count is ≤ its own, so earlier elements win ties. -/
def insert_desc (x : String × ℕ) : List (String × ℕ) → List (String × ℕ)
  | [] => [x]
  | y :: ys => if y.2 ≤ x.2 then x :: y :: ys else y :: insert_desc x ys

/-- Stable sort by count descending (`Counter.most_common()`). -/
def sort_by_count_desc (l : List (String × ℕ)) : List (String × ℕ) :=
  l.foldr insert_desc []

/-- Embeds `dereplication_fulllength` restricted to its core (agc.py lines
107-114), taking the already-read sequence list: count with `Counter`,
iterate `most_common()`, keep records with count ≥ mincount. -/
def dereplicate (seqs : List String) (mincount : ℕ) : List (String × ℕ) :=
  (sort_by_count_desc (counter_items seqs)).filter (fun p => mincount ≤ p.2)

/-- Embeds `dereplication_fulllength(amplicon_file, minseqlen, mincount)`
(agc.py lines 99-114). -/
def dereplication_fulllength (lines : List String) (minseqlen mincount : ℕ) :
    List (String × ℕ) :=
  dereplicate (read_fasta lines minseqlen) mincount

/-- The value of the Python list comprehension's length in `get_identity`:
the number of positions `x < len(alignment_list[0])` where the two aligned
strings hold the same character. -/
def nb_id_nucleotid (s1 s2 : String) : ℕ :=
  ((List.range s1.length).filter (fun x => s1.data.get? x = s2.data.get? x)).length

/-- Embeds `get_identity` (agc.py lines 117-128).  Python failure modes,
in evaluation order: `alignment_list[0]` raises IndexError on an empty
list; the comprehension runs over `range(len(alignment_list[0]))` (when
that length is 0 the second string is never touched and the final
division raises ZeroDivisionError); otherwise `alignment_list[1][x]`
raises IndexError when the list has fewer than two strings or the second
is shorter than the first. -/
def get_identity (alignment_list : List String) : Except String ℚ :=
  match alignment_list with
  | [] => Except.error "IndexError"
  | s1 :: rest =>
    if s1.length = 0 then Except.error "ZeroDivisionError"
    else
      match rest with
      | [] => Except.error "IndexError"
      | s2 :: _ =>
        if s2.length < s1.length then Except.error "IndexError"
        else Except.ok (((nb_id_nucleotid s1 s2 : ℚ) / (s1.length : ℚ)) * 100)

/-- The inner `for seq_OTU in list_OTU` loop of
`abundance_greedy_clustering` (agc.py lines 146-151): align the candidate
against each existing OTU representative in list order, return the final
`flag` (`false` as soon as one identity is ≥ 97.0, with `break`). -/
def scan_OTUs (align : String → String → String × String)
    (list_OTU : List (String × ℕ)) (seq : String × ℕ) : Except String Bool :=
  match list_OTU with
  | [] => Except.ok true
  | seq_OTU :: rest => do
      let a := align seq_OTU.1 seq.1
      let idv ← get_identity [a.1, a.2]
      if 97 ≤ idv then Except.ok false
      else scan_OTUs align rest seq

/-- Variant of `scan_OTUs` instrumented with the number of OTU representatives the
loop actually compared against before returning (observes the `break`). -/
def scan_OTUs_count (align : String → String → String × String)
    (list_OTU : List (String × ℕ)) (seq : String × ℕ) :
    Except String (Bool × ℕ) :=
  match list_OTU with
  | [] => Except.ok (true, 0)
  | seq_OTU :: rest => do
      let a := align seq_OTU.1 seq.1
      let idv ← get_identity [a.1, a.2]
      if 97 ≤ idv then Except.ok (false, 1)
      else do
        let r ← scan_OTUs_count align rest seq
        Except.ok (r.1, r.2 + 1)

/-- One iteration of the outer `for seq in seq_count[1:]` loop (agc.py
lines 145-153): when the flag survives the scan the candidate is appended
to the OTU list, otherwise the list is unchanged. -/
def agc_step (align : String → String → String × String)
    (list_OTU : List (String × ℕ)) (seq : String × ℕ) :
    Except String (List (String × ℕ)) := do
  let flag ← scan_OTUs align list_OTU seq
  if flag then Except.ok (list_OTU ++ [seq]) else Except.ok list_OTU

/-- Embeds `abundance_greedy_clustering` (agc.py lines 142-154) on the
dereplicated record list: `list_OTU = [seq_count[0]]` raises IndexError on
an empty list, then the outer loop folds `agc_step` over the tail. -/
def abundance_greedy_clustering (align : String → String → String × String)
    (seq_count : List (String × ℕ)) : Except String (List (String × ℕ)) :=
  match seq_count with
  | [] => Except.error "IndexError"
  | first :: rest => List.foldlM (agc_step align) [first] rest

/-- The whole pipeline of `abundance_greedy_clustering` from the file's
lines (agc.py line 142 composes `dereplication_fulllength`). -/
def abundance_greedy_clustering_file (align : String → String → String × String)
    (lines : List String) (minseqlen mincount : ℕ) :
    Except String (List (String × ℕ)) :=
  abundance_greedy_clustering align (dereplication_fulllength lines minseqlen mincount)

/-- The identity percentage the assigner observes for a representative
`a` and candidate `b` under aligner `align`, as a rational. -/
def idQ (align : String → String → String × String) (a b : String) : ℚ :=
  ((nb_id_nucleotid (align a b).1 (align a b).2 : ℚ) / ((align a b).1.length : ℚ)) * 100

/-- An aligner is well-formed when every alignment it produces has a
nonempty first string and a second string at least as long, so that
`get_identity` always succeeds on its output. -/
def align_ok (align : String → String → String × String) : Prop :=
  ∀ a b, (align a b).1.length ≠ 0 ∧ (align a b).1.length ≤ (align a b).2.length

/-- A degenerate but well-formed aligner used as a concrete witness:
every pair aligns to ("A", "A"), identity 100%. -/
def alignConstA : String → String → String × String := fun _ _ => ("A", "A")

/-- A concrete aligner that returns its inputs unchanged. -/
def alignId : String → String → String × String := fun a b => (a, b)

/-- Stated from the spec's words ("the percent identity:
`100 * (number of positions where both strings have the same character) /
alignment length`"): the number of aligned positions carrying the same
character, as a `Finset` cardinality. -/
def matching_positions (s1 s2 : String) : ℕ :=
  ((Finset.range s1.length).filter (fun i => s1.data.get? i = s2.data.get? i)).card

/-- Stated from the spec's words: percent identity as
`100 * matching positions / alignment length`. -/
def percent_identity_spec (s1 s2 : String) : ℚ :=
  100 * (matching_positions s1 s2 : ℚ) / (s1.length : ℚ)

/-- Stated from the claim's words: the index of the earliest OTU
representative (scanning in creation order) whose identity with the
candidate sequence reaches 97%, if any. -/
def first_match_idx (align : String → String → String × String)
    (reps : List String) (s : String) : Option ℕ :=
  match reps with
  | [] => none
  | r :: rest =>
      if 97 ≤ idQ align r s then some 0
      else (first_match_idx align rest s).map (· + 1)

/-! ### Helper lemmas: dereplication -/

lemma counter_keys_go_mem (l : List String) :
    ∀ (seen : List String) (a : String),
      a ∈ counter_keys_go seen l ↔ (a ∈ l ∧ a ∉ seen) := by
  induction l with
  | nil => intro seen a; simp [counter_keys_go]
  | cons s rest ih =>
      intro seen a
      by_cases hs : s ∈ seen
      · simp only [counter_keys_go, if_pos hs, ih]
        constructor
        · rintro ⟨ha, hna⟩; exact ⟨List.mem_cons_of_mem _ ha, hna⟩
        · rintro ⟨ha, hna⟩
          rcases List.mem_cons.mp ha with rfl | ha
          · exact absurd hs hna
          · exact ⟨ha, hna⟩
      · simp only [counter_keys_go, if_neg hs, List.mem_cons, ih]
        constructor
        · rintro (rfl | ⟨ha, hna⟩)
          · exact ⟨Or.inl rfl, hs⟩
          · exact ⟨Or.inr ha, fun h => hna (Or.inr h)⟩
        · rintro ⟨rfl | ha, hna⟩
          · exact Or.inl rfl
          · by_cases has : a = s
            · exact Or.inl has
            · exact Or.inr ⟨ha, fun h => h.elim has hna⟩

lemma counter_keys_go_pairwise_indexOf (l : List String) :
    ∀ seen : List String,
      (counter_keys_go seen l).Pairwise
        (fun a b => l.indexOf a < l.indexOf b) := by
  induction l with
  | nil => intro seen; simp [counter_keys_go]
  | cons s rest ih =>
      intro seen
      by_cases hs : s ∈ seen
      · rw [counter_keys_go, if_pos hs]
        refine ((ih seen).imp_of_mem ?_)
        intro a b ha hb hab
        have ha' := ((counter_keys_go_mem rest seen a).mp ha)
        have hb' := ((counter_keys_go_mem rest seen b).mp hb)
        have hane : s ≠ a := fun h => ha'.2 (h ▸ hs)
        have hbne : s ≠ b := fun h => hb'.2 (h ▸ hs)
        rw [List.indexOf_cons_ne _ hane, List.indexOf_cons_ne _ hbne]
        exact Nat.succ_lt_succ hab
      · rw [counter_keys_go, if_neg hs]
        refine List.Pairwise.cons ?_ ?_
        · intro b hb
          have hb' := (counter_keys_go_mem rest (s :: seen) b).mp hb
          have hbne : s ≠ b := fun h => hb'.2 (h ▸ List.mem_cons_self s seen)
          rw [List.indexOf_cons_self, List.indexOf_cons_ne _ hbne]
          exact Nat.succ_pos _
        · refine ((ih (s :: seen)).imp_of_mem ?_)
          intro a b ha hb hab
          have ha' := (counter_keys_go_mem rest (s :: seen) a).mp ha
          have hb' := (counter_keys_go_mem rest (s :: seen) b).mp hb
          have hane : s ≠ a := fun h => ha'.2 (h ▸ List.mem_cons_self s seen)
          have hbne : s ≠ b := fun h => hb'.2 (h ▸ List.mem_cons_self s seen)
          rw [List.indexOf_cons_ne _ hane, List.indexOf_cons_ne _ hbne]
          exact Nat.succ_lt_succ hab

lemma counter_keys_mem (seqs : List String) (a : String) :
    a ∈ counter_keys seqs ↔ a ∈ seqs := by
  simp [counter_keys, counter_keys_go_mem]

lemma counter_keys_pairwise_indexOf (seqs : List String) :
    (counter_keys seqs).Pairwise
      (fun a b => seqs.indexOf a < seqs.indexOf b) :=
  counter_keys_go_pairwise_indexOf seqs []

lemma counter_keys_nodup (seqs : List String) : (counter_keys seqs).Nodup :=
  (counter_keys_pairwise_indexOf seqs).imp
    (fun {a b} h => fun hab => absurd h (by simp [hab]))

lemma counter_items_map_fst (seqs : List String) :
    (counter_items seqs).map Prod.fst = counter_keys seqs := by
  rw [counter_items, List.map_map]
  have h : (Prod.fst ∘ fun s => (s, seq_occurrences seqs s)) = id := rfl
  rw [h, List.map_id]

lemma counter_items_count (seqs : List String) (p : String × ℕ)
    (hp : p ∈ counter_items seqs) : p.2 = seq_occurrences seqs p.1 := by
  rcases List.mem_map.mp hp with ⟨s, _, rfl⟩
  rfl

lemma counter_items_pairwise (seqs : List String) :
    (counter_items seqs).Pairwise
      (fun a b => seqs.indexOf a.1 < seqs.indexOf b.1) :=
  (counter_keys_pairwise_indexOf seqs).map _ (fun _ _ h => h)

lemma insert_desc_perm (x : String × ℕ) (l : List (String × ℕ)) :
    (insert_desc x l).Perm (x :: l) := by
  induction l with
  | nil => simp [insert_desc]
  | cons y ys ih =>
      rw [insert_desc]
      by_cases h : y.2 ≤ x.2
      · rw [if_pos h]
      · rw [if_neg h]
        exact (ih.cons y).trans (List.Perm.swap x y ys)

lemma sort_by_count_desc_perm (l : List (String × ℕ)) :
    (sort_by_count_desc l).Perm l := by
  induction l with
  | nil => simp [sort_by_count_desc]
  | cons x xs ih =>
      have : sort_by_count_desc (x :: xs) = insert_desc x (sort_by_count_desc xs) := rfl
      rw [this]
      exact (insert_desc_perm x _).trans (ih.cons x)

/-- Stability of the descending insertion sort: inserting `x` keeps the
strict-descent-or-tie-with-original-order invariant, provided `x` preceded
every element of the sorted list in the original order `P`. -/
lemma insert_desc_pairwise (P : String × ℕ → String × ℕ → Prop)
    (x : String × ℕ) : ∀ l : List (String × ℕ),
    l.Pairwise (fun a b => b.2 < a.2 ∨ (a.2 = b.2 ∧ P a b)) →
    (∀ b ∈ l, P x b) →
    (insert_desc x l).Pairwise
      (fun a b => b.2 < a.2 ∨ (a.2 = b.2 ∧ P a b)) := by
  intro l
  induction l with
  | nil =>
      intro _ _
      exact List.pairwise_singleton _ x
  | cons y ys ih =>
      intro hl hx
      rw [insert_desc]
      by_cases h : y.2 ≤ x.2
      · rw [if_pos h]
        refine List.Pairwise.cons ?_ hl
        intro b hb
        rcases List.mem_cons.mp hb with hby | hb
        · rw [hby]
          rcases Nat.lt_or_ge y.2 x.2 with hlt | hge
          · exact Or.inl hlt
          · exact Or.inr ⟨Nat.le_antisymm hge h, hx y (List.mem_cons_self _ _)⟩
        · rcases List.rel_of_pairwise_cons hl hb with hyb | ⟨hyb, _⟩
          · exact Or.inl (Nat.lt_of_lt_of_le hyb h)
          · rcases Nat.lt_or_ge y.2 x.2 with hlt | hge
            · exact Or.inl (hyb ▸ hlt)
            · have hxy : x.2 = y.2 := Nat.le_antisymm hge h
              exact Or.inr ⟨hxy.trans hyb, hx b (List.mem_cons_of_mem _ hb)⟩
      · rw [if_neg h]
        have hxy : x.2 < y.2 := Nat.lt_of_not_le h
        refine List.Pairwise.cons ?_
          (ih (List.Pairwise.of_cons hl) (fun b hb => hx b (List.mem_cons_of_mem _ hb)))
        intro b hb
        rcases List.mem_cons.mp ((insert_desc_perm x ys).mem_iff.mp hb) with hbx | hb
        · rw [hbx]
          exact Or.inl hxy
        · exact List.rel_of_pairwise_cons hl hb

/-- The sorted output satisfies: counts strictly descend, or tie and the
original pairwise order `P` is preserved (stability). -/
lemma sort_by_count_desc_pairwise (P : String × ℕ → String × ℕ → Prop)
    (l : List (String × ℕ)) (hl : l.Pairwise P) :
    (sort_by_count_desc l).Pairwise
      (fun a b => b.2 < a.2 ∨ (a.2 = b.2 ∧ P a b)) := by
  induction l with
  | nil => simp [sort_by_count_desc]
  | cons x xs ih =>
      have hstep : sort_by_count_desc (x :: xs) = insert_desc x (sort_by_count_desc xs) := rfl
      rw [hstep]
      refine insert_desc_pairwise P x _ (ih (List.Pairwise.of_cons hl)) ?_
      intro b hb
      exact List.rel_of_pairwise_cons hl ((sort_by_count_desc_perm xs).mem_iff.mp hb)

/-- C3: for every input stream of candidate sequences and every mincount
threshold, the dereplicator emits each distinct sequence at most once,
each emitted record's count equals the number of occurrences of that
exact sequence in the input, and a sequence of the input is emitted if
and only if its occurrence count is ≥ mincount. -/
theorem dereplication_counts_and_threshold (seqs : List String) (mincount : ℕ) :
    ((dereplicate seqs mincount).map Prod.fst).Nodup
    ∧ (∀ p ∈ dereplicate seqs mincount, p.2 = seq_occurrences seqs p.1)
    ∧ (∀ s ∈ seqs,
        ((∃ c, (s, c) ∈ dereplicate seqs mincount)
          ↔ mincount ≤ seq_occurrences seqs s)) := by
  have hperm : (sort_by_count_desc (counter_items seqs)).Perm (counter_items seqs) :=
    sort_by_count_desc_perm _
  have hcount : ∀ p ∈ dereplicate seqs mincount, p.2 = seq_occurrences seqs p.1 := by
    intro p hp
    exact counter_items_count seqs p (hperm.mem_iff.mp (List.mem_of_mem_filter hp))
  refine ⟨?_, hcount, ?_⟩
  · have hnk : ((counter_items seqs).map Prod.fst).Nodup := by
      rw [counter_items_map_fst]
      exact counter_keys_nodup seqs
    have hns : ((sort_by_count_desc (counter_items seqs)).map Prod.fst).Nodup :=
      ((hperm.map Prod.fst).nodup_iff).mpr hnk
    exact ((List.filter_sublist _).map Prod.fst).nodup hns
  · intro s hs
    constructor
    · rintro ⟨c, hc⟩
      have h1 := (List.mem_filter.mp hc).2
      have h2 : c = seq_occurrences seqs s := hcount (s, c) hc
      rw [← h2]
      exact of_decide_eq_true h1
    · intro hge
      refine ⟨seq_occurrences seqs s, ?_⟩
      have h1 : (s, seq_occurrences seqs s) ∈ counter_items seqs :=
        List.mem_map_of_mem _ ((counter_keys_mem seqs s).mpr hs)
      exact List.mem_filter.mpr ⟨hperm.mem_iff.mpr h1, decide_eq_true hge⟩

/-- C3 witness: on the concrete input ["AA", "CC", "AA"] with
mincount = 2, the sequence "AA" (count 2) is emitted. -/
theorem dereplication_counts_and_threshold_witness :
    ∃ c, (("AA" : String), c) ∈ dereplicate ["AA", "CC", "AA"] 2 :=
  ((dereplication_counts_and_threshold ["AA", "CC", "AA"] 2).2.2 "AA"
    (by decide)).mpr (by decide)

/-- C4: the dereplicator's output is ordered by count descending, and
records with equal counts appear in first-occurrence order of their
sequence in the input (the deterministic, stable tie-break). -/
theorem dereplication_ordering (seqs : List String) (mincount : ℕ) :
    (dereplicate seqs mincount).Pairwise
      (fun a b => b.2 ≤ a.2
        ∧ (a.2 = b.2 → seqs.indexOf a.1 < seqs.indexOf b.1)) := by
  have h := sort_by_count_desc_pairwise
    (fun a b => seqs.indexOf a.1 < seqs.indexOf b.1) _ (counter_items_pairwise seqs)
  refine List.Pairwise.filter _ (h.imp ?_)
  rintro a b (hlt | ⟨heq, hP⟩)
  · exact ⟨Nat.le_of_lt hlt, fun heq => absurd (heq ▸ hlt) (Nat.lt_irrefl _)⟩
  · exact ⟨Nat.le_of_eq heq.symm, fun _ => hP⟩

/-- C4 witness: the ordering property instantiated on a concrete input
with a genuine tie ("AA" and "CC" both have count 2). -/
theorem dereplication_ordering_witness :
    (dereplicate ["AA", "CC", "AA", "CC", "GG"] 1).Pairwise
      (fun a b => b.2 ≤ a.2
        ∧ (a.2 = b.2 →
            (["AA", "CC", "AA", "CC", "GG"] : List String).indexOf a.1
              < (["AA", "CC", "AA", "CC", "GG"] : List String).indexOf b.1)) :=
  dereplication_ordering ["AA", "CC", "AA", "CC", "GG"] 1

/-! ### Helper lemmas: greedy clustering -/

lemma except_bind_ok {α β : Type} (x : α) (f : α → Except String β) :
    (Except.ok x : Except String α) >>= f = f x := rfl

lemma except_bind_error {α β : Type} (e : String) (f : α → Except String β) :
    (Except.error e : Except String α) >>= f = Except.error e := rfl

lemma get_identity_pair (s1 s2 : String) (h1 : s1.length ≠ 0)
    (h2 : s1.length ≤ s2.length) :
    get_identity [s1, s2]
      = Except.ok (((nb_id_nucleotid s1 s2 : ℚ) / (s1.length : ℚ)) * 100) := by
  simp only [get_identity, if_neg h1, if_neg (Nat.not_lt.mpr h2)]

lemma get_identity_align (align : String → String → String × String)
    (h : align_ok align) (a b : String) :
    get_identity [(align a b).1, (align a b).2] = Except.ok (idQ align a b) := by
  simp only [idQ]
  exact get_identity_pair _ _ (h a b).1 (h a b).2

lemma first_match_idx_some (align : String → String → String × String)
    (s : String) : ∀ (reps : List String) (i : ℕ),
    first_match_idx align reps s = some i →
      i < reps.length ∧ 97 ≤ idQ align (reps.getD i "") s
        ∧ ∀ j < i, idQ align (reps.getD j "") s < 97 := by
  intro reps
  induction reps with
  | nil => intro i h; simp [first_match_idx] at h
  | cons r rest ih =>
      intro i h
      rw [first_match_idx] at h
      by_cases hr : 97 ≤ idQ align r s
      · rw [if_pos hr] at h
        have h0 : i = 0 := (Option.some.inj h).symm
        subst h0
        exact ⟨Nat.succ_pos _, hr, fun j hj => absurd hj (Nat.not_lt_zero j)⟩
      · rw [if_neg hr] at h
        cases hm : first_match_idx align rest s with
        | none => rw [hm] at h; simp at h
        | some i0 =>
            rw [hm] at h
            have h0 : i = i0 + 1 := (Option.some.inj h).symm
            subst h0
            obtain ⟨hlen, hge, hlt⟩ := ih i0 hm
            refine ⟨Nat.succ_lt_succ hlen, hge, ?_⟩
            intro j hj
            cases j with
            | zero => exact not_le.mp hr
            | succ j0 =>
                have : j0 < i0 := Nat.lt_of_succ_lt_succ hj
                exact hlt j0 this

lemma first_match_idx_none (align : String → String → String × String)
    (s : String) : ∀ reps : List String,
    first_match_idx align reps s = none →
      ∀ j < reps.length, idQ align (reps.getD j "") s < 97 := by
  intro reps
  induction reps with
  | nil => intro _ j hj; exact absurd hj (Nat.not_lt_zero j)
  | cons r rest ih =>
      intro h j hj
      rw [first_match_idx] at h
      by_cases hr : 97 ≤ idQ align r s
      · rw [if_pos hr] at h; exact absurd h (by simp)
      · rw [if_neg hr] at h
        cases hm : first_match_idx align rest s with
        | some i0 => rw [hm] at h; simp at h
        | none =>
            cases j with
            | zero => exact not_le.mp hr
            | succ j0 =>
                have : j0 < rest.length := Nat.lt_of_succ_lt_succ hj
                exact ih hm j0 this

lemma scan_OTUs_count_eq (align : String → String → String × String)
    (h : align_ok align) (seq : String × ℕ) :
    ∀ list_OTU : List (String × ℕ),
      scan_OTUs_count align list_OTU seq
        = match first_match_idx align (list_OTU.map Prod.fst) seq.1 with
          | some i => Except.ok (false, i + 1)
          | none => Except.ok (true, list_OTU.length) := by
  intro l
  induction l with
  | nil => rfl
  | cons o rest ih =>
      show (get_identity [(align o.1 seq.1).1, (align o.1 seq.1).2] >>= fun idv =>
        if 97 ≤ idv then Except.ok (false, 1)
        else scan_OTUs_count align rest seq >>= fun r => Except.ok (r.1, r.2 + 1)) = _
      rw [get_identity_align align h, except_bind_ok]
      by_cases hr : 97 ≤ idQ align o.1 seq.1
      · rw [if_pos hr]
        simp only [List.map_cons, first_match_idx, if_pos hr]
      · rw [if_neg hr, ih]
        simp only [List.map_cons, first_match_idx, if_neg hr]
        cases hm : first_match_idx align (rest.map Prod.fst) seq.1 with
        | some i0 => rw [except_bind_ok]; rfl
        | none => rw [except_bind_ok]; rfl

lemma scan_OTUs_eq_count_map (align : String → String → String × String)
    (seq : String × ℕ) : ∀ list_OTU : List (String × ℕ),
    scan_OTUs align list_OTU seq
      = (scan_OTUs_count align list_OTU seq).map Prod.fst := by
  intro l
  induction l with
  | nil => rfl
  | cons o rest ih =>
      show (get_identity [(align o.1 seq.1).1, (align o.1 seq.1).2] >>= fun idv =>
          if 97 ≤ idv then Except.ok false else scan_OTUs align rest seq)
        = ((get_identity [(align o.1 seq.1).1, (align o.1 seq.1).2] >>= fun idv =>
          if 97 ≤ idv then Except.ok (false, 1)
          else scan_OTUs_count align rest seq >>= fun r => Except.ok (r.1, r.2 + 1)).map
            Prod.fst)
      cases hg : get_identity [(align o.1 seq.1).1, (align o.1 seq.1).2] with
      | error e => rfl
      | ok idv =>
          rw [except_bind_ok, except_bind_ok]
          by_cases hr : 97 ≤ idv
          · rw [if_pos hr, if_pos hr]; rfl
          · rw [if_neg hr, if_neg hr, ih]
            cases hm : scan_OTUs_count align rest seq with
            | error e => rfl
            | ok r => rfl

lemma agc_step_cases (align : String → String → String × String)
    (list_OTU : List (String × ℕ)) (seq : String × ℕ)
    (out : List (String × ℕ)) (h : agc_step align list_OTU seq = Except.ok out) :
    out = list_OTU ∨ out = list_OTU ++ [seq] := by
  rw [agc_step] at h
  cases hs : scan_OTUs align list_OTU seq with
  | error e => rw [hs, except_bind_error] at h; exact absurd h (by simp)
  | ok flag =>
      rw [hs, except_bind_ok] at h
      cases flag with
      | false =>
          simp only [Bool.false_eq_true, if_neg] at h
          exact Or.inl (Except.ok.inj h).symm
      | true =>
          simp only [if_pos] at h
          exact Or.inr (Except.ok.inj h).symm

lemma foldlM_agc_frame (align : String → String → String × String) :
    ∀ (rest acc out : List (String × ℕ)),
      List.foldlM (agc_step align) acc rest = Except.ok out →
      ∃ extra, out = acc ++ extra ∧ extra.Sublist rest := by
  intro rest
  induction rest with
  | nil =>
      intro acc out h
      rw [List.foldlM_nil] at h
      simp only [pure, Except.pure] at h
      exact ⟨[], by simp [Except.ok.inj h], List.nil_sublist _⟩
  | cons seq rest ih =>
      intro acc out h
      rw [List.foldlM_cons] at h
      cases hstep : agc_step align acc seq with
      | error e => rw [hstep, except_bind_error] at h; exact absurd h (by simp)
      | ok acc1 =>
          rw [hstep, except_bind_ok] at h
          obtain ⟨extra1, hout, hsub⟩ := ih acc1 out h
          rcases agc_step_cases align acc seq acc1 hstep with h2 | h2
          · exact ⟨extra1, by rw [hout, h2], hsub.cons _⟩
          · refine ⟨seq :: extra1, ?_, hsub.cons₂ _⟩
            rw [hout, h2, List.append_assoc]
            rfl

lemma alignConstA_ok : align_ok alignConstA := by
  intro a b
  constructor
  · show "A".length ≠ 0
    decide
  · show "A".length ≤ "A".length
    exact Nat.le_refl _

lemma idQ_alignConstA (a b : String) : idQ alignConstA a b = 100 := by
  have h1 : nb_id_nucleotid "A" "A" = 1 := by decide
  have h2 : "A".length = 1 := rfl
  simp [idQ, alignConstA, h1, h2]

/-- Concrete run: with an aligner under which nothing reaches 97%
identity ("AAAA" vs "CCCC" aligns to itself, 0%), both records become
OTUs. -/
lemma run_alignId_eval :
    abundance_greedy_clustering alignId [("AAAA", 3), ("CCCC", 2)]
      = Except.ok [("AAAA", 3), ("CCCC", 2)] := by
  have h : nb_id_nucleotid "AAAA" "CCCC" = 0 := by decide
  have hl : "AAAA".length = 4 := rfl
  have hl2 : "CCCC".length = 4 := rfl
  simp [abundance_greedy_clustering, agc_step, scan_OTUs, get_identity,
    alignId, h, hl, hl2, bind, Except.bind, pure, Except.pure]
  norm_num

/-- Concrete run: with the constant aligner (identity always 100%), the
second record matches the first OTU and is discarded. -/
lemma run_alignConstA_eval :
    abundance_greedy_clustering alignConstA [("AAAA", 3), ("CCCC", 2)]
      = Except.ok [("AAAA", 3)] := by
  have h : nb_id_nucleotid "A" "A" = 1 := by decide
  have hl : "A".length = 1 := rfl
  simp [abundance_greedy_clustering, agc_step, scan_OTUs, get_identity,
    alignConstA, h, hl, bind, Except.bind, pure, Except.pure]
  norm_num

/-- C2: on a non-empty record list the assigner folds over the records
after the first; each candidate is scanned against the existing OTU
representatives in creation order, the scan stops at the earliest
representative whose identity reaches 97.0% (the candidate is then
discarded), and when no representative reaches 97.0% the candidate is
appended as a new OTU at the end of the list. -/
theorem abundance_greedy_clustering_greedy_scan
    (align : String → String → String × String) (h : align_ok align)
    (first seq : String × ℕ) (rest list_OTU : List (String × ℕ)) :
    abundance_greedy_clustering align (first :: rest)
        = List.foldlM (agc_step align) [first] rest
    ∧ scan_OTUs align list_OTU seq
        = (scan_OTUs_count align list_OTU seq).map Prod.fst
    ∧ scan_OTUs_count align list_OTU seq
        = (match first_match_idx align (list_OTU.map Prod.fst) seq.1 with
           | some i => Except.ok (false, i + 1)
           | none => Except.ok (true, list_OTU.length))
    ∧ (∀ i, first_match_idx align (list_OTU.map Prod.fst) seq.1 = some i →
          i < list_OTU.length
          ∧ 97 ≤ idQ align ((list_OTU.map Prod.fst).getD i "") seq.1
          ∧ ∀ j < i, idQ align ((list_OTU.map Prod.fst).getD j "") seq.1 < 97)
    ∧ (first_match_idx align (list_OTU.map Prod.fst) seq.1 = none →
          ∀ j < list_OTU.length,
            idQ align ((list_OTU.map Prod.fst).getD j "") seq.1 < 97)
    ∧ agc_step align list_OTU seq
        = Except.ok
            (if first_match_idx align (list_OTU.map Prod.fst) seq.1 = none
             then list_OTU ++ [seq] else list_OTU) := by
  refine ⟨rfl, scan_OTUs_eq_count_map align seq list_OTU,
    scan_OTUs_count_eq align h seq list_OTU, ?_, ?_, ?_⟩
  · intro i hi
    have h1 := first_match_idx_some align seq.1 (list_OTU.map Prod.fst) i hi
    rwa [List.length_map] at h1
  · intro hn
    have h1 := first_match_idx_none align seq.1 (list_OTU.map Prod.fst) hn
    rwa [List.length_map] at h1
  · rw [agc_step, scan_OTUs_eq_count_map align seq list_OTU,
      scan_OTUs_count_eq align h seq list_OTU]
    cases hm : first_match_idx align (list_OTU.map Prod.fst) seq.1 with
    | some i => simp [except_bind_ok, Except.map]
    | none => simp [except_bind_ok, Except.map]

/-- C2 witness: concrete instance with one existing OTU; the candidate
matches it (identity 100% ≥ 97%) and is discarded. -/
theorem abundance_greedy_clustering_greedy_scan_witness :
    agc_step alignConstA [(("AAAA" : String), 3)] ("CCCC", 2)
      = Except.ok [(("AAAA" : String), 3)] := by
  have h := (abundance_greedy_clustering_greedy_scan alignConstA alignConstA_ok
    ("AAAA", 3) ("CCCC", 2) [] [("AAAA", 3)]).2.2.2.2.2
  rw [h]
  have hm : first_match_idx alignConstA ["AAAA"] "CCCC" = some 0 := by
    rw [first_match_idx, if_pos]
    rw [idQ_alignConstA]
    norm_num
  simp [hm]

/-- C7: for every aligner and every non-empty record list on which the
run succeeds, the first OTU Record of the output is the first
(highest-abundance) Abundance Record, verbatim. -/
theorem abundance_greedy_clustering_head
    (align : String → String → String × String) (first : String × ℕ)
    (rest out : List (String × ℕ))
    (h : abundance_greedy_clustering align (first :: rest) = Except.ok out) :
    out.head? = some first := by
  have h1 : List.foldlM (agc_step align) [first] rest = Except.ok out := h
  obtain ⟨extra, hout, -⟩ := foldlM_agc_frame align rest [first] out h1
  rw [hout]
  rfl

/-- C7 witness: the concrete successful run on [("AAAA",3), ("CCCC",2)]
has first OTU ("AAAA", 3). -/
theorem abundance_greedy_clustering_head_witness :
    ([(("AAAA" : String), 3), (("CCCC" : String), 2)] : List (String × ℕ)).head?
      = some ("AAAA", 3) :=
  abundance_greedy_clustering_head alignId ("AAAA", 3) [("CCCC", 2)]
    [("AAAA", 3), ("CCCC", 2)] run_alignId_eval

/-- C8: frame property of the assigner: a step either leaves the OTU
list unchanged (matched candidate discarded) or appends the candidate at
the end; consequently a successful run's output consists of the first
record followed by a sublist of the remaining input records, each carried
verbatim with the count of the record that seeded it. -/
theorem abundance_greedy_clustering_frame
    (align : String → String → String × String) (first : String × ℕ)
    (rest out : List (String × ℕ))
    (h : abundance_greedy_clustering align (first :: rest) = Except.ok out) :
    (∀ list_OTU seq out1, agc_step align list_OTU seq = Except.ok out1 →
        out1 = list_OTU ∨ out1 = list_OTU ++ [seq])
    ∧ ∃ extra, out = first :: extra ∧ extra.Sublist rest := by
  refine ⟨fun l s o ho => agc_step_cases align l s o ho, ?_⟩
  have h1 : List.foldlM (agc_step align) [first] rest = Except.ok out := h
  obtain ⟨extra, hout, hsub⟩ := foldlM_agc_frame align rest [first] out h1
  exact ⟨extra, by simpa using hout, hsub⟩

/-- C8 witness: in the concrete run where ("CCCC", 2) matches the first
OTU, the output is the seeding record alone, a sublist situation. -/
theorem abundance_greedy_clustering_frame_witness :
    ∃ extra, ([(("AAAA" : String), 3)] : List (String × ℕ))
        = ("AAAA", 3) :: extra
      ∧ extra.Sublist [(("CCCC" : String), 2)] :=
  (abundance_greedy_clustering_frame alignConstA ("AAAA", 3) [("CCCC", 2)]
    [("AAAA", 3)] run_alignConstA_eval).2

/-- C9: the assigner is deterministic: two runs with extensionally equal
aligners and equal input record lists produce identical results. -/
theorem abundance_greedy_clustering_deterministic
    (align1 align2 : String → String → String × String)
    (seq_count1 seq_count2 : List (String × ℕ))
    (ha : ∀ a b, align1 a b = align2 a b) (hl : seq_count1 = seq_count2) :
    abundance_greedy_clustering align1 seq_count1
      = abundance_greedy_clustering align2 seq_count2 := by
  subst hl
  have h : align1 = align2 := funext fun a => funext fun b => ha a b
  rw [h]

/-- C9 witness: determinism instantiated on a concrete aligner and
input. -/
theorem abundance_greedy_clustering_deterministic_witness :
    abundance_greedy_clustering alignId [("AAAA", 3), ("CCCC", 2)]
      = abundance_greedy_clustering alignId [("AAAA", 3), ("CCCC", 2)] :=
  abundance_greedy_clustering_deterministic alignId alignId
    [("AAAA", 3), ("CCCC", 2)] [("AAAA", 3), ("CCCC", 2)]
    (fun _ _ => rfl) rfl

lemma matching_positions_eq (s1 s2 : String) :
    matching_positions s1 s2 = nb_id_nucleotid s1 s2 := rfl

/-- C5: on an alignment pair of equal-length strings of length ≥ 1, the
identity scorer returns 100 * matching positions / alignment length; in
particular 100 when the strings are identical and 0 when they differ at
every position. -/
theorem get_identity_formula (s1 s2 : String)
    (hlen : s1.length = s2.length) (hpos : 1 ≤ s1.length) :
    get_identity [s1, s2] = Except.ok (percent_identity_spec s1 s2)
    ∧ (s1 = s2 → get_identity [s1, s2] = Except.ok 100)
    ∧ ((∀ i < s1.length, s1.data.get? i ≠ s2.data.get? i) →
        get_identity [s1, s2] = Except.ok 0) := by
  have h1 : s1.length ≠ 0 := by omega
  have h2 : s1.length ≤ s2.length := le_of_eq hlen
  have hq : (s1.length : ℚ) ≠ 0 := Nat.cast_ne_zero.mpr h1
  have hev := get_identity_pair s1 s2 h1 h2
  refine ⟨?_, ?_, ?_⟩
  · rw [hev, percent_identity_spec, matching_positions_eq]
    congr 1
    rw [div_mul_eq_mul_div, mul_comm]
  · intro heq
    subst heq
    rw [hev]
    have hnb : nb_id_nucleotid s1 s1 = s1.length := by
      rw [nb_id_nucleotid]
      rw [List.filter_eq_self.mpr (fun x _ => by simp)]
      exact List.length_range _
    rw [hnb]
    rw [div_self hq, one_mul]
  · intro hdiff
    rw [hev]
    have hnb : nb_id_nucleotid s1 s2 = 0 := by
      rw [nb_id_nucleotid, List.length_eq_zero]
      exact List.filter_eq_nil_iff.mpr
        (fun x hx => by simpa using hdiff x (List.mem_range.mp hx))
    rw [hnb]
    norm_num

/-- C5 witness: a self-alignment with no gaps scores 100.0%. -/
theorem get_identity_formula_witness :
    get_identity ["AC", "AC"] = Except.ok 100 :=
  (get_identity_formula "AC" "AC" rfl (by decide)).2.1 rfl

/-- C10: on an alignment pair of equal-length strings, the identity
scorer raises an unguarded division-by-zero error exactly when the
alignment length is 0, and raises no other error. -/
theorem get_identity_error_iff (s1 s2 : String)
    (hlen : s1.length = s2.length) :
    (s1.length = 0 → get_identity [s1, s2] = Except.error "ZeroDivisionError")
    ∧ ((∃ e, get_identity [s1, s2] = Except.error e) ↔ s1.length = 0) := by
  have hz : s1.length = 0 → get_identity [s1, s2] = Except.error "ZeroDivisionError" := by
    intro h0
    simp only [get_identity, if_pos h0]
  refine ⟨hz, ?_, fun h0 => ⟨"ZeroDivisionError", hz h0⟩⟩
  rintro ⟨e, he⟩
  by_contra h0
  rw [get_identity_pair s1 s2 h0 (le_of_eq hlen)] at he
  exact absurd he (by simp)

/-- C10 witness: the degenerate empty alignment pair raises the
division-by-zero error. -/
theorem get_identity_error_iff_witness :
    get_identity ["", ""] = Except.error "ZeroDivisionError" :=
  (get_identity_error_iff "" "" rfl).1 rfl

/-- C1: on an amplicon input whose dereplicated record list is empty
(here: mincount 2 exceeds every occurrence count), the program does NOT
return an empty OTU list: `list_OTU = [seq_count[0]]` raises IndexError.
This contradicts the spec's error-handling design (empty input yields an
empty OTU list, not an error). -/
theorem abundance_greedy_clustering_empty_derep_raises :
    dereplication_fulllength [">s1", "AC"] 1 2 = []
    ∧ (∀ align, abundance_greedy_clustering align [] = Except.error "IndexError")
    ∧ abundance_greedy_clustering_file alignId [">s1", "AC"] 1 2
        = Except.error "IndexError" := by
  have hd : dereplication_fulllength [">s1", "AC"] 1 2 = [] := by decide
  refine ⟨hd, fun align => rfl, ?_⟩
  rw [abundance_greedy_clustering_file, hd]
  exact rfl

/-- C6: the sequence stream filter does NOT length-filter the final
sequence: the unconditional final yield emits the last record ("AC",
length 2) even though minseqlen is 3.  This contradicts the function's
own docstring and the spec. -/
theorem read_fasta_final_yield_unfiltered :
    read_fasta [">s1", "AC"] 3 = ["AC"] ∧ "AC".length < 3 := by
  exact ⟨by decide, by decide⟩
